import Mathlib

/-!
Verification of the saved-query service and the index-template creation
wizard of the `watson/kibana` excerpt.

The saved-query service (`saved_query_service.ts`) stores the optional
`filters` and `timefilter` attributes as JSON text and parses them back when
reading.  To reason about that round trip we embed a JSON value type
together with an executable serializer (modelling `JSON.stringify`) and an
executable parser (modelling `JSON.parse`).  JSON numbers are modelled as
integers; the data handled by the service (booleans, nulls, strings,
integer counts) stays within this fragment.
-/

mutual

/-- JSON values.  `obj` keeps its fields as an ordered association list,
matching the order `JSON.stringify` emits. -/
inductive Json where
  | null : Json
  | bool (b : Bool) : Json
  | num (n : Int) : Json
  | str (s : List Char) : Json
  | arr (xs : JsonList) : Json
  | obj (fs : JsonFields) : Json

inductive JsonList where
  | nil : JsonList
  | cons (hd : Json) (tl : JsonList) : JsonList

inductive JsonFields where
  | nil : JsonFields
  | cons (key : List Char) (val : Json) (tl : JsonFields) : JsonFields

end

/-- The left brace character, `'\x7b'`. -/
def lbrace : Char := '\x7b'

/-- The right brace character, `'\x7d'`. -/
def rbrace : Char := '\x7d'

/-- Escaping of one character inside a string literal, as `JSON.stringify` does it. -/
def escapeChar (c : Char) : List Char :=
  if c = '"' ∨ c = '\\' then ['\\', c] else [c]

/-- Escaping of a string body, as `JSON.stringify` does it. -/
def escapeString : List Char → List Char
  | [] => []
  | c :: cs => escapeChar c ++ escapeString cs

/-- Decimal digits of a natural number, most significant first. -/
def natChars (m : Nat) : List Char :=
  if m = 0 then ['0'] else ((Nat.digits 10 m).reverse.map Nat.digitChar)

/-- Decimal rendering of an integer. -/
def intChars (n : Int) : List Char :=
  if n < 0 then '-' :: natChars n.natAbs else natChars n.natAbs

mutual

/-- Model of `JSON.stringify` on `Json` values (no added whitespace, matching
the JavaScript builtin). -/
def jsonStringify : Json → List Char
  | .num n => intChars n
  | .str s => '"' :: escapeString s ++ ['"']
  | .bool false => ['f', 'a', 'l', 's', 'e']
  | .bool true => ['t', 'r', 'u', 'e']
  | .null => ['n', 'u', 'l', 'l']
  | .arr xs => '[' :: stringifyElems xs ++ [']']
  | .obj fs => lbrace :: stringifyFields fs ++ [rbrace]

/-- Comma separated serialization of array elements. -/
def stringifyElems : JsonList → List Char
  | .nil => []
  | .cons x .nil => jsonStringify x
  | .cons x (.cons y tl) => jsonStringify x ++ ',' :: stringifyElems (.cons y tl)

/-- Comma separated serialization of object fields. -/
def stringifyFields : JsonFields → List Char
  | .nil => []
  | .cons k v .nil => '"' :: escapeString k ++ '"' :: ':' :: jsonStringify v
  | .cons k v (.cons k2 v2 tl) =>
      ('"' :: escapeString k ++ '"' :: ':' :: jsonStringify v) ++
        ',' :: stringifyFields (.cons k2 v2 tl)

end

/-- Is `c` JSON insignificant whitespace? -/
def isWs (c : Char) : Bool :=
  c == '\t' || c == ' ' || c == '\r' || c == '\n'

/-- Drop leading whitespace. -/
def skipWs : List Char → List Char
  | [] => []
  | c :: cs => if isWs c then skipWs cs else c :: cs

/-- Parse a JSON string body (everything after the opening quote), undoing
the `escapeChar` escapes; returns the decoded body and the input after the
closing quote. -/
def parseStringBody : List Char → Option (List Char × List Char)
  | [] => none
  | c :: cs =>
    if c = '"' then some ([], cs)
    else if c = '\\' then
      match cs with
      | [] => none
      | c2 :: cs2 =>
        match parseStringBody cs2 with
        | none => none
        | some (s, r) => some (c2 :: s, r)
    else
      match parseStringBody cs with
      | none => none
      | some (s, r) => some (c :: s, r)

/-- Match the exact characters `pat` at the head of the input. -/
def stripChars : List Char → List Char → Option (List Char)
  | [], cs => some cs
  | _ :: _, [] => none
  | p :: ps, c :: cs => if c = p then stripChars ps cs else none

/-- Numeric value of a decimal digit character. -/
def digitVal (c : Char) : Nat := c.toNat - 48

/-- Decimal number denoted by a digit list, most significant first. -/
def natFromDigits (cs : List Char) : Nat :=
  cs.foldl (fun a c => 10 * a + digitVal c) 0

/-- Parse a run of decimal digits. -/
def parseNat (cs : List Char) : Option (Nat × List Char) :=
  let ds := cs.takeWhile Char.isDigit
  if ds = [] then none
  else some (natFromDigits ds, cs.dropWhile Char.isDigit)

/-- Succeed with `v` when the literal characters `pat` come next. -/
def expectChars (pat : List Char) (cs : List Char) (v : Json) :
    Option (Json × List Char) :=
  match stripChars pat cs with
  | none => none
  | some r => some (v, r)

mutual

/-- Fuel-indexed recursive descent parser for the JSON fragment emitted by
`jsonStringify` (modelling `JSON.parse`).  Returns the value and the
remaining input. -/
def parseJson : Nat → List Char → Option (Json × List Char)
  | 0, _ => none
  | Nat.succ fuel, cs =>
    match skipWs cs with
    | [] => none
    | c :: r =>
      if c = 'n' then expectChars ['u', 'l', 'l'] r Json.null
      else if c = 't' then expectChars ['r', 'u', 'e'] r (Json.bool true)
      else if c = 'f' then expectChars ['a', 'l', 's', 'e'] r (Json.bool false)
      else if c = '"' then
        match parseStringBody r with
        | none => none
        | some (s, r2) => some (Json.str s, r2)
      else if c = '[' then parseArr fuel r
      else if c = lbrace then parseObj fuel r
      else if c = '-' then
        match parseNat r with
        | none => none
        | some (m, r2) => some (Json.num (-(m : Int)), r2)
      else if c.isDigit then
        match parseNat (c :: r) with
        | none => none
        | some (m, r2) => some (Json.num (m : Int), r2)
      else none

/-- Parse an array after its opening bracket. -/
def parseArr : Nat → List Char → Option (Json × List Char)
  | 0, _ => none
  | Nat.succ fuel, cs =>
    match skipWs cs with
    | [] => none
    | c :: r =>
      if c = ']' then some (Json.arr JsonList.nil, r)
      else
        match parseElems fuel (c :: r) with
        | none => none
        | some (xs, r2) => some (Json.arr xs, r2)

/-- Parse one or more comma separated array elements and the closing
bracket. -/
def parseElems : Nat → List Char → Option (JsonList × List Char)
  | 0, _ => none
  | Nat.succ fuel, cs =>
    match parseJson fuel cs with
    | none => none
    | some (v, r) =>
      match skipWs r with
      | [] => none
      | c :: r2 =>
        if c = ',' then
          match parseElems fuel r2 with
          | none => none
          | some (xs, r3) => some (JsonList.cons v xs, r3)
        else if c = ']' then some (JsonList.cons v JsonList.nil, r2)
        else none

/-- Parse an object after its opening brace. -/
def parseObj : Nat → List Char → Option (Json × List Char)
  | 0, _ => none
  | Nat.succ fuel, cs =>
    match skipWs cs with
    | [] => none
    | c :: r =>
      if c = rbrace then some (Json.obj JsonFields.nil, r)
      else
        match parseFields fuel (c :: r) with
        | none => none
        | some (fs, r2) => some (Json.obj fs, r2)

/-- Parse one or more comma separated object fields and the closing
brace. -/
def parseFields : Nat → List Char → Option (JsonFields × List Char)
  | 0, _ => none
  | Nat.succ fuel, cs =>
    match skipWs cs with
    | [] => none
    | c :: r =>
      if c = '"' then
        match parseStringBody r with
        | none => none
        | some (k, r2) =>
          match skipWs r2 with
          | [] => none
          | c2 :: r3 =>
            if c2 = ':' then
              match parseJson fuel r3 with
              | none => none
              | some (v, r4) =>
                match skipWs r4 with
                | [] => none
                | c3 :: r5 =>
                  if c3 = ',' then
                    match parseFields fuel r5 with
                    | none => none
                    | some (fs, r6) => some (JsonFields.cons k v fs, r6)
                  else if c3 = rbrace then
                    some (JsonFields.cons k v JsonFields.nil, r5)
                  else none
            else none
      else none

end

/-- Model of `JSON.parse` on a whole input: parse one value and require only
whitespace to remain. -/
def jsonParse (cs : List Char) : Option Json :=
  match parseJson (2 * cs.length + 1) cs with
  | none => none
  | some (v, r) => if skipWs r = [] then some v else none

/-- Does the input avoid starting with a decimal digit?  (Serialized numbers
followed by such a remainder parse unambiguously.) -/
def noDigitStart : List Char → Bool
  | [] => true
  | c :: _ => !c.isDigit

theorem skipWs_cons (c : Char) (cs : List Char) (h : isWs c = false) :
    skipWs (c :: cs) = c :: cs := by
  simp [skipWs, h]

theorem stripChars_append (pat rest : List Char) :
    stripChars pat (pat ++ rest) = some rest := by
  induction pat with
  | nil => rfl
  | cons p ps ih => simp [stripChars, ih]

theorem parseStringBody_escape (s rest : List Char) :
    parseStringBody (escapeString s ++ '"' :: rest) = some (s, rest) := by
  induction s with
  | nil =>
    rw [escapeString, List.nil_append, parseStringBody.eq_def]
    simp
  | cons c cs ih =>
    by_cases h : c = '"' ∨ c = '\\'
    · rw [escapeString, escapeChar, if_pos h, List.cons_append, List.cons_append,
        parseStringBody.eq_def]
      simp [ih]
    · push_neg at h
      rw [escapeString, escapeChar, if_neg (by simp [h.1, h.2]), List.cons_append,
        parseStringBody.eq_def]
      simp [h.1, h.2, ih]

theorem digitVal_digitChar : ∀ d, d < 10 → digitVal (Nat.digitChar d) = d := by
  decide

theorem digitChar_isDigit : ∀ d, d < 10 → (Nat.digitChar d).isDigit = true := by
  decide

theorem natChars_all_digit (m : Nat) : ∀ c ∈ natChars m, c.isDigit = true := by
  intro c hc
  unfold natChars at hc
  by_cases hm : m = 0
  · simp [hm] at hc
    simp [hc]
  · simp [hm] at hc
    obtain ⟨d, hd, hdc⟩ := hc
    have := Nat.digits_lt_base (by norm_num) hd
    rw [← hdc]
    exact digitChar_isDigit d this

theorem natChars_ne_nil (m : Nat) : natChars m ≠ [] := by
  unfold natChars
  by_cases hm : m = 0
  · simp [hm]
  · simp [hm, Nat.digits_ne_nil_iff_ne_zero]

theorem foldl_digitVal_digitChar (l : List Nat) (h : ∀ d ∈ l, d < 10) :
    ∀ a : Nat,
      List.foldl (fun a d => 10 * a + digitVal (Nat.digitChar d)) a l
        = List.foldl (fun a d => 10 * a + d) a l := by
  induction l with
  | nil => intro a; rfl
  | cons d l ih =>
    intro a
    have hd : d < 10 := h d (by simp)
    simp only [List.foldl_cons, digitVal_digitChar d hd]
    exact ih (fun x hx => h x (by simp [hx])) _

theorem foldl_reverse_ofDigits (l : List Nat) :
    List.foldl (fun a d => 10 * a + d) 0 l.reverse = Nat.ofDigits 10 l := by
  induction l with
  | nil => rfl
  | cons d l ih =>
    simp only [List.reverse_cons, List.foldl_append, List.foldl_cons,
      List.foldl_nil, ih, Nat.ofDigits_cons]
    ring

theorem natFromDigits_natChars (m : Nat) :
    natFromDigits (natChars m) = m := by
  by_cases hm : m = 0
  · subst hm; rfl
  · unfold natFromDigits natChars
    simp only [hm, if_false]
    rw [List.foldl_map]
    rw [foldl_digitVal_digitChar _
      (fun d hd => Nat.digits_lt_base (by norm_num) (List.mem_reverse.mp hd))]
    rw [foldl_reverse_ofDigits, Nat.ofDigits_digits]

theorem isDigit_ne (c d : Char) (h : c.isDigit = true) (hd : d.isDigit = false) :
    c ≠ d := by
  intro hc
  rw [hc, hd] at h
  exact Bool.noConfusion h

theorem isDigit_not_ws (c : Char) (h : c.isDigit = true) : isWs c = false := by
  by_contra hw
  rw [Bool.not_eq_false] at hw
  simp only [isWs, Bool.or_eq_true, beq_iff_eq] at hw
  rcases hw with ((h1 | h1) | h1) | h1 <;>
    · subst h1
      exact absurd h (by decide)

theorem isDigit_head_route (c : Char) (h : c.isDigit = true) :
    c ≠ 'n' ∧ c ≠ 't' ∧ c ≠ 'f' ∧ c ≠ '"' ∧ c ≠ '[' ∧ c ≠ lbrace ∧ c ≠ '-' :=
  ⟨isDigit_ne c 'n' h (by decide), isDigit_ne c 't' h (by decide),
    isDigit_ne c 'f' h (by decide), isDigit_ne c '"' h (by decide),
    isDigit_ne c '[' h (by decide), isDigit_ne c lbrace h (by decide),
    isDigit_ne c '-' h (by decide)⟩

theorem takeWhile_append_digits (l r : List Char)
    (hl : ∀ c ∈ l, c.isDigit = true) (hr : noDigitStart r = true) :
    (l ++ r).takeWhile Char.isDigit = l ∧
      (l ++ r).dropWhile Char.isDigit = r := by
  induction l with
  | nil =>
    cases r with
    | nil => exact ⟨rfl, rfl⟩
    | cons c cs =>
      simp only [noDigitStart, Bool.not_eq_true'] at hr
      simp [List.takeWhile_cons, List.dropWhile_cons, hr]
  | cons c cs ih =>
    have hc : c.isDigit = true := hl c (by simp)
    have h2 := ih (fun x hx => hl x (by simp [hx]))
    simp [List.takeWhile_cons, List.dropWhile_cons, hc, h2.1, h2.2]

theorem parseNat_append (m : Nat) (rest : List Char)
    (hr : noDigitStart rest = true) :
    parseNat (natChars m ++ rest) = some (m, rest) := by
  obtain ⟨ht, hd⟩ :=
    takeWhile_append_digits (natChars m) rest (natChars_all_digit m) hr
  simp [parseNat, ht, hd, natChars_ne_nil m, natFromDigits_natChars m]

mutual

/-- Parser fuel sufficient for a value serialized by `jsonStringify`. -/
def Json.fsize : Json → Nat
  | .arr xs => 2 + xs.fsizeL
  | .obj fs => 2 + fs.fsizeF
  | .str _ => 1
  | .num _ => 1
  | .bool _ => 1
  | .null => 1

/-- Parser fuel sufficient for serialized array elements. -/
def JsonList.fsizeL : JsonList → Nat
  | .nil => 0
  | .cons x tl => 1 + x.fsize + tl.fsizeL

/-- Parser fuel sufficient for serialized object fields. -/
def JsonFields.fsizeF : JsonFields → Nat
  | .nil => 0
  | .cons _ v tl => 1 + v.fsize + tl.fsizeF

end

theorem stringify_head (v : Json) :
    ∃ c cs, jsonStringify v = c :: cs ∧ isWs c = false ∧ c ≠ ']' := by
  cases v with
  | null => exact ⟨'n', _, rfl, by decide, by decide⟩
  | bool b =>
    cases b with
    | true => exact ⟨'t', _, rfl, by decide, by decide⟩
    | false => exact ⟨'f', _, rfl, by decide, by decide⟩
  | num n =>
    show ∃ c cs, intChars n = c :: cs ∧ _
    unfold intChars
    by_cases hn : n < 0
    · exact ⟨'-', _, by rw [if_pos hn], by decide, by decide⟩
    · rw [if_neg hn]
      obtain ⟨c, cs, hc⟩ := List.exists_cons_of_ne_nil (natChars_ne_nil n.natAbs)
      have hcd : c.isDigit = true := natChars_all_digit _ c (by rw [hc]; simp)
      exact ⟨c, cs, hc, isDigit_not_ws c hcd, isDigit_ne c ']' hcd (by decide)⟩
  | str s => exact ⟨'"', _, rfl, by decide, by decide⟩
  | arr xs => exact ⟨'[', _, rfl, by decide, by decide⟩
  | obj fs => exact ⟨lbrace, _, rfl, by decide, by decide⟩

theorem stringifyElems_cons (x : Json) (tl : JsonList) :
    ∃ t, stringifyElems (JsonList.cons x tl) = jsonStringify x ++ t := by
  cases tl with
  | nil => exact ⟨[], by simp [stringifyElems]⟩
  | cons y t2 =>
    exact ⟨',' :: stringifyElems (JsonList.cons y t2), by simp [stringifyElems]⟩

theorem stringifyFields_cons (k : List Char) (v : Json) (tl : JsonFields) :
    ∃ t, stringifyFields (JsonFields.cons k v tl)
      = '"' :: (escapeString k ++ '"' :: ':' :: (jsonStringify v ++ t)) := by
  cases tl with
  | nil => exact ⟨[], by simp [stringifyFields]⟩
  | cons k2 v2 t2 =>
    exact ⟨',' :: stringifyFields (JsonFields.cons k2 v2 t2),
      by simp [stringifyFields]⟩

theorem noDigitStart_cons (c : Char) (l : List Char) (h : c.isDigit = false) :
    noDigitStart (c :: l) = true := by
  simp [noDigitStart, h]

theorem parse_stringify (fuel : Nat) :
    (∀ v : Json, ∀ rest, Json.fsize v ≤ fuel → noDigitStart rest = true →
        parseJson fuel (jsonStringify v ++ rest) = some (v, rest)) ∧
    (∀ xs : JsonList, ∀ rest, xs ≠ JsonList.nil → JsonList.fsizeL xs ≤ fuel →
        parseElems fuel (stringifyElems xs ++ ']' :: rest) = some (xs, rest)) ∧
    (∀ fs : JsonFields, ∀ rest, fs ≠ JsonFields.nil →
        JsonFields.fsizeF fs ≤ fuel →
        parseFields fuel (stringifyFields fs ++ rbrace :: rest)
          = some (fs, rest)) := by
  induction fuel using Nat.strong_induction_on with
  | _ fuel IH =>
  refine ⟨?_, ?_, ?_⟩
  · intro v rest hsz hrest
    cases v with
    | null =>
      obtain ⟨f, rfl⟩ : ∃ f, fuel = f + 1 :=
        ⟨fuel - 1, by simp [Json.fsize] at hsz; omega⟩
      rw [jsonStringify, parseJson.eq_def]
      simp [skipWs, isWs, expectChars, stripChars]
    | bool b =>
      obtain ⟨f, rfl⟩ : ∃ f, fuel = f + 1 :=
        ⟨fuel - 1, by simp [Json.fsize] at hsz; omega⟩
      cases b with
      | true =>
        rw [jsonStringify, parseJson.eq_def]
        simp [skipWs, isWs, expectChars, stripChars]
      | false =>
        rw [jsonStringify, parseJson.eq_def]
        simp [skipWs, isWs, expectChars, stripChars]
    | num n =>
      obtain ⟨f, rfl⟩ : ∃ f, fuel = f + 1 :=
        ⟨fuel - 1, by simp [Json.fsize] at hsz; omega⟩
      rw [jsonStringify, parseJson.eq_def]
      by_cases hn : n < 0
      · rw [intChars, if_pos hn]
        simp only [List.cons_append]
        rw [skipWs_cons _ _ (by decide)]
        dsimp only
        rw [if_neg (show ¬ ('-' : Char) = 'n' by decide),
          if_neg (show ¬ ('-' : Char) = 't' by decide),
          if_neg (show ¬ ('-' : Char) = 'f' by decide),
          if_neg (show ¬ ('-' : Char) = '"' by decide),
          if_neg (show ¬ ('-' : Char) = '[' by decide),
          if_neg (show ¬ ('-' : Char) = lbrace by decide),
          if_pos (show ('-' : Char) = '-' from rfl),
          parseNat_append _ _ hrest]
        simp only [Option.some.injEq, Prod.mk.injEq, Json.num.injEq]
        refine ⟨by omega, trivial⟩
      · rw [intChars, if_neg hn]
        obtain ⟨c, cs, hc⟩ :=
          List.exists_cons_of_ne_nil (natChars_ne_nil n.natAbs)
        have hcd : c.isDigit = true :=
          natChars_all_digit _ c (by rw [hc]; simp)
        obtain ⟨h1, h2, h3, h4, h5, h6, h7⟩ := isDigit_head_route c hcd
        rw [hc]
        simp only [List.cons_append]
        rw [skipWs_cons _ _ (isDigit_not_ws c hcd)]
        dsimp only
        rw [if_neg h1, if_neg h2, if_neg h3, if_neg h4, if_neg h5, if_neg h6,
          if_neg h7, if_pos hcd]
        rw [show c :: (cs ++ rest) = (c :: cs) ++ rest from rfl, ← hc]
        rw [parseNat_append _ _ hrest]
        simp only [Option.some.injEq, Prod.mk.injEq, Json.num.injEq]
        refine ⟨by omega, trivial⟩
    | str s =>
      obtain ⟨f, rfl⟩ : ∃ f, fuel = f + 1 :=
        ⟨fuel - 1, by simp [Json.fsize] at hsz; omega⟩
      rw [jsonStringify, parseJson.eq_def]
      simp [skipWs, isWs, parseStringBody_escape]
    | arr xs =>
      simp only [Json.fsize] at hsz
      obtain ⟨g, rfl⟩ : ∃ g, fuel = g + 2 := ⟨fuel - 2, by omega⟩
      rw [jsonStringify, parseJson.eq_def]
      cases xs with
      | nil =>
        rw [stringifyElems]
        simp only [List.cons_append, List.nil_append]
        rw [skipWs_cons _ _ (by decide)]
        dsimp only
        rw [if_neg (show ¬ ('[' : Char) = 'n' by decide),
          if_neg (show ¬ ('[' : Char) = 't' by decide),
          if_neg (show ¬ ('[' : Char) = 'f' by decide),
          if_neg (show ¬ ('[' : Char) = '"' by decide),
          if_pos (show ('[' : Char) = '[' from rfl)]
        rw [parseArr.eq_def]
        dsimp only
        rw [skipWs_cons _ _ (by decide)]
        dsimp only
        rw [if_pos (show (']' : Char) = ']' from rfl)]
      | cons x tl =>
        obtain ⟨t, ht⟩ := stringifyElems_cons x tl
        obtain ⟨c, cs, hc, hws, hne⟩ := stringify_head x
        simp only [List.cons_append, List.append_assoc]
        rw [skipWs_cons _ _ (by decide)]
        dsimp only
        rw [if_neg (show ¬ ('[' : Char) = 'n' by decide),
          if_neg (show ¬ ('[' : Char) = 't' by decide),
          if_neg (show ¬ ('[' : Char) = 'f' by decide),
          if_neg (show ¬ ('[' : Char) = '"' by decide),
          if_pos (show ('[' : Char) = '[' from rfl)]
        rw [parseArr.eq_def]
        dsimp only
        rw [ht, hc]
        simp only [List.cons_append, List.append_assoc, List.nil_append]
        rw [skipWs_cons _ _ hws]
        dsimp only
        rw [if_neg hne]
        rw [show c :: (cs ++ (t ++ ']' :: rest))
            = stringifyElems (JsonList.cons x tl) ++ ']' :: rest from
            by rw [ht, hc]; simp]
        rw [(IH g (by omega)).2.1 (JsonList.cons x tl) rest
          (by intro hcon; exact JsonList.noConfusion hcon) (by omega)]
    | obj fs =>
      simp only [Json.fsize] at hsz
      obtain ⟨g, rfl⟩ : ∃ g, fuel = g + 2 := ⟨fuel - 2, by omega⟩
      rw [jsonStringify, parseJson.eq_def]
      cases fs with
      | nil =>
        rw [stringifyFields]
        simp only [List.cons_append, List.nil_append]
        rw [skipWs_cons _ _ (by decide)]
        dsimp only
        rw [if_neg (show ¬ lbrace = 'n' by decide),
          if_neg (show ¬ lbrace = 't' by decide),
          if_neg (show ¬ lbrace = 'f' by decide),
          if_neg (show ¬ lbrace = '"' by decide),
          if_neg (show ¬ lbrace = '[' by decide),
          if_pos (show lbrace = lbrace from rfl)]
        rw [parseObj.eq_def]
        dsimp only
        rw [skipWs_cons _ _ (by decide)]
        dsimp only
        rw [if_pos (show rbrace = rbrace from rfl)]
      | cons k v tl =>
        obtain ⟨t, ht⟩ := stringifyFields_cons k v tl
        simp only [List.cons_append, List.append_assoc]
        rw [skipWs_cons _ _ (by decide)]
        dsimp only
        rw [if_neg (show ¬ lbrace = 'n' by decide),
          if_neg (show ¬ lbrace = 't' by decide),
          if_neg (show ¬ lbrace = 'f' by decide),
          if_neg (show ¬ lbrace = '"' by decide),
          if_neg (show ¬ lbrace = '[' by decide),
          if_pos (show lbrace = lbrace from rfl)]
        rw [parseObj.eq_def]
        dsimp only
        rw [ht]
        simp only [List.cons_append, List.append_assoc, List.nil_append]
        rw [skipWs_cons _ _ (by decide)]
        dsimp only
        rw [if_neg (show ¬ ('"' : Char) = rbrace by decide)]
        rw [show '"' :: (escapeString k ++ '"' :: ':' :: (jsonStringify v
              ++ (t ++ rbrace :: rest)))
            = stringifyFields (JsonFields.cons k v tl) ++ rbrace :: rest from
            by rw [ht]; simp]
        rw [(IH g (by omega)).2.2 (JsonFields.cons k v tl) rest
          (by intro hcon; exact JsonFields.noConfusion hcon) (by omega)]
  · intro xs rest hne hsz
    cases xs with
    | nil => exact absurd rfl hne
    | cons x tl =>
      simp only [JsonList.fsizeL] at hsz
      obtain ⟨f, rfl⟩ : ∃ f, fuel = f + 1 := ⟨fuel - 1, by omega⟩
      rw [parseElems.eq_def]
      dsimp only
      cases tl with
      | nil =>
        rw [stringifyElems]
        rw [(IH f (by omega)).1 x (']' :: rest) (by omega)
          (noDigitStart_cons _ _ (by decide))]
        dsimp only
        rw [skipWs_cons _ _ (by decide)]
        dsimp only
        rw [if_neg (show ¬ (']' : Char) = ',' by decide),
          if_pos (show (']' : Char) = ']' from rfl)]
      | cons y t2 =>
        rw [stringifyElems]
        simp only [List.cons_append, List.append_assoc]
        rw [(IH f (by omega)).1 x
          (',' :: (stringifyElems (JsonList.cons y t2) ++ ']' :: rest))
          (by omega) (noDigitStart_cons _ _ (by decide))]
        dsimp only
        rw [skipWs_cons _ _ (by decide)]
        dsimp only
        rw [if_pos (show (',' : Char) = ',' from rfl)]
        rw [(IH f (by omega)).2.1 (JsonList.cons y t2) rest
          (by intro hcon; exact JsonList.noConfusion hcon)
          (by simp only [JsonList.fsizeL] at hsz ⊢; omega)]
  · intro fs rest hne hsz
    cases fs with
    | nil => exact absurd rfl hne
    | cons k v tl =>
      simp only [JsonFields.fsizeF] at hsz
      obtain ⟨f, rfl⟩ : ∃ f, fuel = f + 1 := ⟨fuel - 1, by omega⟩
      rw [parseFields.eq_def]
      dsimp only
      cases tl with
      | nil =>
        rw [stringifyFields]
        simp only [List.cons_append, List.append_assoc]
        rw [skipWs_cons _ _ (by decide)]
        dsimp only
        rw [if_pos (show ('"' : Char) = '"' from rfl)]
        rw [show escapeString k ++ '"' :: ':' :: (jsonStringify v
              ++ rbrace :: rest)
            = escapeString k ++ '"' :: (':' :: (jsonStringify v
              ++ rbrace :: rest)) from by simp]
        rw [parseStringBody_escape]
        dsimp only
        rw [skipWs_cons _ _ (by decide)]
        dsimp only
        rw [if_pos (show (':' : Char) = ':' from rfl)]
        rw [(IH f (by omega)).1 v (rbrace :: rest) (by omega)
          (noDigitStart_cons _ _ (by decide))]
        dsimp only
        rw [skipWs_cons _ _ (by decide)]
        dsimp only
        rw [if_neg (show ¬ rbrace = ',' by decide),
          if_pos (show rbrace = rbrace from rfl)]
      | cons k2 v2 t2 =>
        rw [stringifyFields]
        simp only [List.cons_append, List.append_assoc]
        rw [skipWs_cons _ _ (by decide)]
        dsimp only
        rw [if_pos (show ('"' : Char) = '"' from rfl)]
        rw [show escapeString k ++ '"' :: ':' :: (jsonStringify v
              ++ ',' :: (stringifyFields (JsonFields.cons k2 v2 t2)
                ++ rbrace :: rest))
            = escapeString k ++ '"' :: (':' :: (jsonStringify v
              ++ ',' :: (stringifyFields (JsonFields.cons k2 v2 t2)
                ++ rbrace :: rest))) from by simp]
        rw [parseStringBody_escape]
        dsimp only
        rw [skipWs_cons _ _ (by decide)]
        dsimp only
        rw [if_pos (show (':' : Char) = ':' from rfl)]
        rw [(IH f (by omega)).1 v
          (',' :: (stringifyFields (JsonFields.cons k2 v2 t2)
            ++ rbrace :: rest))
          (by omega) (noDigitStart_cons _ _ (by decide))]
        dsimp only
        rw [skipWs_cons _ _ (by decide)]
        dsimp only
        rw [if_pos (show (',' : Char) = ',' from rfl)]
        rw [(IH f (by omega)).2.2 (JsonFields.cons k2 v2 t2) rest
          (by intro hcon; exact JsonFields.noConfusion hcon)
          (by simp only [JsonFields.fsizeF] at hsz ⊢; omega)]

mutual

theorem fsize_le_json : ∀ v : Json, Json.fsize v ≤ 2 * (jsonStringify v).length
  | .null => by simp [Json.fsize, jsonStringify]
  | .bool true => by simp [Json.fsize, jsonStringify]
  | .bool false => by simp [Json.fsize, jsonStringify]
  | .num n => by
    have h := natChars_ne_nil n.natAbs
    have h2 : 1 ≤ (natChars n.natAbs).length :=
      Nat.one_le_iff_ne_zero.mpr (by simpa using h)
    simp only [Json.fsize, jsonStringify, intChars]
    by_cases hn : n < 0
    · rw [if_pos hn]; simp; omega
    · rw [if_neg hn]; omega
  | .str s => by simp [Json.fsize, jsonStringify]; omega
  | .arr xs => by
    have h := fsizeL_le xs
    simp only [Json.fsize, jsonStringify, List.length_cons, List.length_append,
      List.length_nil]
    omega
  | .obj fs => by
    have h := fsizeF_le fs
    simp only [Json.fsize, jsonStringify, List.length_cons, List.length_append,
      List.length_nil]
    omega

theorem fsizeL_le : ∀ xs : JsonList,
    JsonList.fsizeL xs ≤ 2 + 2 * (stringifyElems xs).length
  | .nil => by simp [JsonList.fsizeL, stringifyElems]
  | .cons x .nil => by
    have h := fsize_le_json x
    simp only [JsonList.fsizeL, stringifyElems]
    omega
  | .cons x (.cons y tl) => by
    have h1 := fsize_le_json x
    have h2 := fsizeL_le (JsonList.cons y tl)
    simp only [JsonList.fsizeL, stringifyElems, List.length_append,
      List.length_cons]
    simp only [JsonList.fsizeL] at h2
    omega

theorem fsizeF_le : ∀ fs : JsonFields,
    JsonFields.fsizeF fs ≤ 2 + 2 * (stringifyFields fs).length
  | .nil => by simp [JsonFields.fsizeF, stringifyFields]
  | .cons k v .nil => by
    have h := fsize_le_json v
    simp only [JsonFields.fsizeF, stringifyFields, List.length_cons,
      List.length_append]
    omega
  | .cons k v (.cons k2 v2 tl) => by
    have h1 := fsize_le_json v
    have h2 := fsizeF_le (JsonFields.cons k2 v2 tl)
    simp only [JsonFields.fsizeF, stringifyFields, List.length_append,
      List.length_cons]
    simp only [JsonFields.fsizeF] at h2
    omega

end

/-- Parsing undoes serialization: the JSON round trip is lossless. -/
theorem jsonParse_stringify (v : Json) :
    jsonParse (jsonStringify v) = some v := by
  unfold jsonParse
  have h1 := (parse_stringify (2 * (jsonStringify v).length + 1)).1 v []
    (by have := fsize_le_json v; omega) rfl
  rw [List.append_nil] at h1
  rw [h1]
  simp [skipWs]

/-!
## Saved query service

`saved_query_service.ts` itself is not part of the excerpt (only its test
suite is), so the service operations are modelled from the spec, with the
shapes fixed by the test suite.
-/

/-- The `query` sub-attribute of a saved query: a language tag and a query
text. -/
structure QueryValue where
  language : List Char
  query : List Char

/-- In-memory `SavedQueryAttributes`: `filters` and `timefilter` are parsed
objects (when present). -/
structure SavedQueryAttributes where
  title : List Char
  description : List Char
  query : QueryValue
  filters : Option Json
  timefilter : Option Json

/-- At-rest saved query attributes: `filters` and `timefilter` are JSON text
(when present). -/
structure StoredQueryAttributes where
  title : List Char
  description : List Char
  query : QueryValue
  filters : Option (List Char)
  timefilter : Option (List Char)

/-- Modelled from the spec: `saveQuery` serializes the optional `filters`
and `timefilter` attributes to JSON text before handing the attributes to
the saved-objects client; all other fields pass through unchanged. -/
def serializeAttributes (a : SavedQueryAttributes) : StoredQueryAttributes :=
  { title := a.title
    description := a.description
    query := a.query
    filters := a.filters.map jsonStringify
    timefilter := a.timefilter.map jsonStringify }

/-- Parse one optional stored sub-field: an absent field stays absent, a
present field must parse as JSON. -/
def parseOptField : Option (List Char) → Option (Option Json)
  | none => some none
  | some s => (jsonParse s).map some

/-- Modelled from the spec: reading back a stored saved query deserializes
the JSON sub-fields `filters` and `timefilter`. -/
def deserializeAttributes (s : StoredQueryAttributes) :
    Option SavedQueryAttributes :=
  match parseOptField s.filters, parseOptField s.timefilter with
  | some f, some t =>
    some { title := s.title
           description := s.description
           query := s.query
           filters := f
           timefilter := t }
  | _, _ => none

/-- A saved object of type `query` as held by the store. -/
structure StoredObject where
  id : List Char
  attributes : StoredQueryAttributes

/-- A saved query as returned to callers: id plus in-memory attributes. -/
structure SavedQuery where
  id : List Char
  attributes : SavedQueryAttributes

/-- The query record `findSavedQueries` issues to the saved-objects client's
find operation. -/
structure FindQuery where
  search : Option (List Char)
  searchFields : List (List Char)
  sortField : List Char
  objType : List Char

/-- Deserialize each stored object in order; fail if any JSON sub-field
fails to parse. -/
def deserializeList : List StoredObject → Option (List SavedQuery)
  | [] => some []
  | so :: rest =>
    match deserializeAttributes so.attributes, deserializeList rest with
    | some a, some qs => some ({ id := so.id, attributes := a } :: qs)
    | _, _ => none

/-- Modelled from the spec: `findSavedQueries(searchText?)` queries the
store by type "query" with an optional text search over title (boosted) and
description, deserializes the JSON sub-fields in each result object handed
back by the store, and returns the list in store order. -/
def findSavedQueries (searchText : Option (List Char))
    (savedObjects : List StoredObject) :
    FindQuery × Option (List SavedQuery) :=
  ({ search := searchText
     searchFields := ["title^5".data, "description".data]
     sortField := "_score".data
     objType := "query".data },
    deserializeList savedObjects)

/-- Options that `saveQuery` passes to the saved-objects client's create
operation when an explicit id is supplied. -/
structure CreateOpts where
  id : List Char
  overwrite : Bool

/-- One call of the saved-objects client's create operation: the object
type, the (serialized) attributes, and the optional id/overwrite options. -/
structure CreateCall where
  objType : List Char
  attributes : StoredQueryAttributes
  options : Option CreateOpts

/-- The error value a store response may carry. -/
structure StorageError where
  error : List Char
  message : List Char

/-- The saved-objects client's response to a create call. -/
structure CreateResponse where
  id : List Char
  attributes : StoredQueryAttributes
  error : Option StorageError

/-- The record `saveQuery` resolves with on success. -/
structure SaveQueryResult where
  id : List Char
  attributes : SavedQueryAttributes

/-- Modelled from the spec: `saveQuery(attributes, id?)` serializes
`filters`/`timefilter` to JSON text if present, calls create (with
id/overwrite options exactly when an id is given), fails with the response's
error when the store response carries an error field, and otherwise returns
the response id together with the original, unserialized attributes.
Returns the create call made alongside the outcome. -/
def saveQuery (attributes : SavedQueryAttributes) (id : Option (List Char))
    (response : CreateResponse) :
    CreateCall × Except StorageError SaveQueryResult :=
  let call : CreateCall :=
    { objType := "query".data
      attributes := serializeAttributes attributes
      options := id.map (fun i => { id := i, overwrite := true }) }
  match response.error with
  | some e => (call, Except.error e)
  | none => (call, Except.ok { id := response.id, attributes := attributes })

theorem deserialize_serialize (a : SavedQueryAttributes) :
    deserializeAttributes (serializeAttributes a) = some a := by
  unfold deserializeAttributes serializeAttributes parseOptField
  rcases a with ⟨t, d, q, f, tf⟩
  cases f with
  | none =>
    cases tf with
    | none => rfl
    | some tv => simp [jsonParse_stringify]
  | some fv =>
    cases tf with
    | none => simp [jsonParse_stringify]
    | some tv => simp [jsonParse_stringify]

theorem deserializeList_serialize (items : List SavedQuery) :
    deserializeList
      (items.map (fun q => { id := q.id
                             attributes := serializeAttributes q.attributes }))
      = some items := by
  induction items with
  | nil => rfl
  | cons q qs ih => simp [deserializeList, deserialize_serialize, ih]

/-- The attribute fixture of the test suite: title `foo`, description `bar`,
kuery query `response:200`, no filters, no timefilter. -/
def savedQueryAttributes : SavedQueryAttributes :=
  { title := "foo".data
    description := "bar".data
    query := { language := "kuery".data, query := "response:200".data }
    filters := none
    timefilter := none }

/-- The parsed `filters` fixture of the test suite. -/
def testFilters : Json :=
  Json.arr (JsonList.cons
    (Json.obj
      (JsonFields.cons ("query".data)
        (Json.obj (JsonFields.cons ("match_all".data)
          (Json.obj JsonFields.nil) JsonFields.nil))
      (JsonFields.cons ("$state".data)
        (Json.obj (JsonFields.cons ("store".data)
          (Json.str ("appState".data)) JsonFields.nil))
      (JsonFields.cons ("meta".data)
        (Json.obj
          (JsonFields.cons ("disabled".data) (Json.bool false)
          (JsonFields.cons ("negate".data) (Json.bool false)
          (JsonFields.cons ("alias".data) Json.null JsonFields.nil))))
      JsonFields.nil))))
    JsonList.nil)

/-- The parsed `timefilter` fixture of the test suite. -/
def testTimefilter : Json :=
  Json.obj
    (JsonFields.cons ("timeTo".data) (Json.str ("now".data))
    (JsonFields.cons ("timeFrom".data) (Json.str ("now-15m".data))
    (JsonFields.cons ("refreshInterval".data)
      (Json.obj (JsonFields.cons ("pause".data) (Json.bool false)
        (JsonFields.cons ("value".data) (Json.num 0) JsonFields.nil)))
      JsonFields.nil)))

/-- The attribute fixture with parsed filters and timefilter present. -/
def savedQueryAttributesWithFilters : SavedQueryAttributes :=
  { savedQueryAttributes with
      filters := some testFilters
      timefilter := some testTimefilter }

/-- The saved query fixture handed back by the mocked find. -/
def savedQueryWithFilters : SavedQuery :=
  { id := "1234".data, attributes := savedQueryAttributesWithFilters }

/-- C1: for attributes whose optional `filters` and `timefilter` are present
as parsed objects, serializing those two fields to JSON text (the storage
representation) and passing the stored objects through `findSavedQueries`
yields a result list whose attributes equal the pre-serialization input
attributes. -/
theorem findSavedQueries_roundtrip (searchText : Option (List Char))
    (items : List SavedQuery)
    (h : ∀ q ∈ items, q.attributes.filters.isSome = true ∧
      q.attributes.timefilter.isSome = true) :
    (findSavedQueries searchText
      (items.map (fun q => { id := q.id
                             attributes :=
                               serializeAttributes q.attributes }))).2
      = some items := by
  unfold findSavedQueries
  exact deserializeList_serialize items

theorem findSavedQueries_roundtrip_witness :
    (∀ q ∈ [savedQueryWithFilters], q.attributes.filters.isSome = true ∧
      q.attributes.timefilter.isSome = true) ∧
    (findSavedQueries (some ("bar".data))
      ([savedQueryWithFilters].map
        (fun q => { id := q.id
                    attributes := serializeAttributes q.attributes }))).2
      = some [savedQueryWithFilters] :=
  ⟨by decide, findSavedQueries_roundtrip (some ("bar".data))
    [savedQueryWithFilters] (by decide)⟩

/-- C2: with an explicit id, `saveQuery` calls create with type `query`, the
(serialized) attributes and options carrying that id and overwrite set; with
no id it calls create with type `query` and the attributes only, passing no
id/overwrite options. -/
theorem saveQuery_create_call (a : SavedQueryAttributes) (i : List Char)
    (resp resp2 : CreateResponse) :
    (saveQuery a (some i) resp).1
      = { objType := "query".data
          attributes := serializeAttributes a
          options := some { id := i, overwrite := true } } ∧
    (saveQuery a none resp2).1
      = { objType := "query".data
          attributes := serializeAttributes a
          options := none } := by
  constructor
  · cases h : resp.error <;> simp [saveQuery, h]
  · cases h : resp2.error <;> simp [saveQuery, h]

/-- C3: whichever of the optional `filters` and `timefilter` attributes are
present as parsed objects, `saveQuery` hands them to create as
JSON-stringified text (an absent field stays absent, every other attribute
field passes through unchanged), and on a response without an error field it
returns the response id with the original, unserialized attributes. -/
theorem saveQuery_serializes_input (a : SavedQueryAttributes)
    (i : Option (List Char)) (resp : CreateResponse)
    (he : resp.error = none) :
    (saveQuery a i resp).1.attributes.filters
        = a.filters.map jsonStringify ∧
    (saveQuery a i resp).1.attributes.timefilter
        = a.timefilter.map jsonStringify ∧
    (saveQuery a i resp).1.attributes.title = a.title ∧
    (saveQuery a i resp).1.attributes.description = a.description ∧
    (saveQuery a i resp).1.attributes.query = a.query ∧
    (saveQuery a i resp).2
      = Except.ok { id := resp.id, attributes := a } := by
  refine ⟨?_, ?_, ?_, ?_, ?_, ?_⟩ <;>
    simp [saveQuery, he, serializeAttributes]

/-- An attribute fixture with only `filters` present (the timefilter-less
side of the claim's and/or). -/
def savedQueryAttributesFiltersOnly : SavedQueryAttributes :=
  { savedQueryAttributes with filters := some testFilters }

/-- The store response fixture of the successful create tests. -/
def okCreateResponse : CreateResponse :=
  { id := "1234".data
    attributes := serializeAttributes savedQueryAttributesFiltersOnly
    error := none }

theorem saveQuery_serializes_input_witness :
    okCreateResponse.error = none ∧
    ((saveQuery savedQueryAttributesFiltersOnly none
          okCreateResponse).1.attributes.filters
        = savedQueryAttributesFiltersOnly.filters.map jsonStringify ∧
      (saveQuery savedQueryAttributesFiltersOnly none
          okCreateResponse).1.attributes.timefilter
        = savedQueryAttributesFiltersOnly.timefilter.map jsonStringify ∧
      (saveQuery savedQueryAttributesFiltersOnly none
          okCreateResponse).1.attributes.title
        = savedQueryAttributesFiltersOnly.title ∧
      (saveQuery savedQueryAttributesFiltersOnly none
          okCreateResponse).1.attributes.description
        = savedQueryAttributesFiltersOnly.description ∧
      (saveQuery savedQueryAttributesFiltersOnly none
          okCreateResponse).1.attributes.query
        = savedQueryAttributesFiltersOnly.query ∧
      (saveQuery savedQueryAttributesFiltersOnly none okCreateResponse).2
        = Except.ok { id := okCreateResponse.id
                      attributes := savedQueryAttributesFiltersOnly }) :=
  ⟨rfl, saveQuery_serializes_input savedQueryAttributesFiltersOnly none
    okCreateResponse rfl⟩

/-- C4: `saveQuery` fails exactly when the store response carries an error
field; with no error field it returns normally with the response id and the
input attributes. -/
theorem saveQuery_error_iff (a : SavedQueryAttributes)
    (i : Option (List Char)) (resp : CreateResponse) :
    ((∃ e, (saveQuery a i resp).2 = Except.error e) ↔ resp.error ≠ none) ∧
    (resp.error = none →
      (saveQuery a i resp).2
        = Except.ok { id := resp.id, attributes := a }) := by
  constructor
  · constructor
    · rintro ⟨e, he⟩ hnone
      simp [saveQuery, hnone] at he
    · intro hne
      cases h : resp.error with
      | none => exact absurd h hne
      | some e => exact ⟨e, by simp [saveQuery, h]⟩
  · intro h
    simp [saveQuery, h]

/-- The erroring store response fixture of the test suite. -/
def errCreateResponse : CreateResponse :=
  { id := []
    attributes := serializeAttributes savedQueryAttributes
    error := some { error := "123".data, message := "An Error".data } }

theorem saveQuery_error_iff_witness :
    ((∃ e, (saveQuery savedQueryAttributes none errCreateResponse).2
        = Except.error e) ↔ errCreateResponse.error ≠ none) ∧
    (errCreateResponse.error = none →
      (saveQuery savedQueryAttributes none errCreateResponse).2
        = Except.ok { id := errCreateResponse.id
                      attributes := savedQueryAttributes }) :=
  saveQuery_error_iff savedQueryAttributes none errCreateResponse

/-!
## Index template creation wizard

`step_logistics.tsx` is part of the excerpt; the surrounding wizard
(validation module, step components for settings/mappings/aliases, review
step, submission) is not, so those parts are modelled from the spec with
shapes and messages fixed by the test suite.
-/

/-- An order/version field value: `step_logistics.tsx` stores either
`Number(value)` or the raw (empty) string. -/
inductive NumOrStr where
  | num (n : Int)
  | str (s : List Char)
deriving DecidableEq

/-- Is the field value a number? -/
def NumOrStr.isNum : NumOrStr → Bool
  | .num _ => true
  | .str _ => false

/-- Model of the JavaScript `Number()` coercion on the decimal strings a
numeric input field emits. -/
def jsNumber (s : List Char) : Int :=
  match s with
  | '-' :: rest => -((natFromDigits (rest.takeWhile Char.isDigit) : Nat) : Int)
  | _ => ((natFromDigits (s.takeWhile Char.isDigit) : Nat) : Int)

/-- The template draft accumulated by the wizard. -/
structure TemplateDraft where
  name : List Char
  indexPatterns : List (List Char)
  order : NumOrStr
  version : NumOrStr
  settings : List Char
  mappings : List Char
  aliases : List Char
deriving DecidableEq

/-- Modelled from the spec: the empty draft the wizard starts from.  The
numeric inputs are backed by the empty string (the payload test expects
order/version to submit as the empty string when untouched); the JSON text
fields start as an empty object document. -/
def initialTemplate : TemplateDraft :=
  { name := []
    indexPatterns := []
    order := NumOrStr.str []
    version := NumOrStr.str []
    settings := "\x7b\x7d".data
    mappings := "\x7b\x7d".data
    aliases := "\x7b\x7d".data }

/-- From `step_logistics.tsx`: the name field's onChange replaces the
draft's name with the input value. -/
def nameOnChange (draft : TemplateDraft) (value : List Char) :
    TemplateDraft :=
  { draft with name := value }

/-- From `step_logistics.tsx`: the index patterns combo box onChange
replaces the draft's patterns with the selected labels. -/
def indexPatternsOnChange (draft : TemplateDraft)
    (patterns : List (List Char)) : TemplateDraft :=
  { draft with indexPatterns := patterns }

/-- From `step_logistics.tsx`: the combo box onCreateOption ignores input
that trims to nothing and otherwise appends the new pattern. -/
def indexPatternsOnCreate (draft : TemplateDraft) (pattern : List Char) :
    TemplateDraft :=
  if pattern.all isWs then draft
  else { draft with indexPatterns := draft.indexPatterns ++ [pattern] }

/-- From `step_logistics.tsx`: the order field's onChange stores the raw
value when the input is cleared to the empty string and `Number(value)`
otherwise. -/
def orderOnChange (draft : TemplateDraft) (value : List Char) :
    TemplateDraft :=
  { draft with
      order := if value = [] then NumOrStr.str value
        else NumOrStr.num (jsNumber value) }

/-- From `step_logistics.tsx`: the version field's onChange, same shape as
the order field's. -/
def versionOnChange (draft : TemplateDraft) (value : List Char) :
    TemplateDraft :=
  { draft with
      version := if value = [] then NumOrStr.str value
        else NumOrStr.num (jsNumber value) }

/-- Modelled from the spec: the `INVALID_CHARACTERS` constant of
`common/constants` (not part of the excerpt).  The characters Elasticsearch
forbids in index names, apart from space (checked separately, per the
`step_logistics.tsx` help text) and the wildcard (which index patterns
allow). -/
def INVALID_CHARACTERS : List Char :=
  ['\\', '/', '?', '"', '<', '>', '|', ',']

/-- Does a pattern contain a space or a forbidden character? -/
def patternHasIllegalChars (p : List Char) : Bool :=
  p.any (fun c => decide (c = ' ' ∨ c ∈ INVALID_CHARACTERS))

/-- The per-pattern illegal character message of the logistics step. -/
def illegalCharsMsg (p : List Char) : List Char :=
  '\'' :: (p ++ ('\'' :: " index pattern contains illegal characters.".data))

/-- Modelled from the spec: the logistics step validation - name required,
at least one index pattern required, and no pattern may contain illegal
characters. -/
def validateLogistics (d : TemplateDraft) : List (List Char) :=
  (if d.name = [] then ["Template name is required.".data] else []) ++
    (if d.indexPatterns = []
      then ["You must define at least one index pattern.".data] else []) ++
    (d.indexPatterns.filter patternHasIllegalChars).map illegalCharsMsg

/-- Modelled from the spec: a free-text JSON field validates exactly when
its content parses as JSON; otherwise the literal message
`Invalid JSON format.` is emitted. -/
def validateJsonField (s : List Char) : List (List Char) :=
  if (jsonParse s).isSome then [] else ["Invalid JSON format.".data]

/-- The wizard's linear states. -/
inductive WizardStep where
  | logistics
  | settings
  | mappings
  | aliases
  | review
deriving DecidableEq

/-- The JSON text field validated by a step (steps without one validate the
empty text, which is never consulted). -/
def stepJsonField : WizardStep → TemplateDraft → List Char
  | .settings, d => d.settings
  | .mappings, d => d.mappings
  | .aliases, d => d.aliases
  | _, _ => []

/-- Modelled from the spec: per-step validation of the wizard. -/
def validateStep : WizardStep → TemplateDraft → List (List Char)
  | .logistics, d => validateLogistics d
  | .settings, d => validateJsonField d.settings
  | .mappings, d => validateJsonField d.mappings
  | .aliases, d => validateJsonField d.aliases
  | .review, _ => []

/-- The successor of each wizard state. -/
def nextStepOf : WizardStep → WizardStep
  | .logistics => .settings
  | .settings => .mappings
  | .mappings => .aliases
  | .aliases => .review
  | .review => .review

/-- The predecessor of each wizard state. -/
def prevStepOf : WizardStep → WizardStep
  | .logistics => .logistics
  | .settings => .logistics
  | .mappings => .settings
  | .aliases => .mappings
  | .review => .aliases

/-- The wizard's full state: current step, draft, and displayed validation
errors. -/
structure WizardState where
  step : WizardStep
  draft : TemplateDraft
  errors : List (List Char)
deriving DecidableEq

/-- The state the wizard mounts in. -/
def initialWizardState : WizardState :=
  { step := WizardStep.logistics, draft := initialTemplate, errors := [] }

/-- Modelled from the spec: clicking Next runs the current step's
validation; errors block the transition and are displayed, otherwise the
wizard advances. -/
def clickNext (st : WizardState) : WizardState :=
  match validateStep st.step st.draft with
  | [] => { st with step := nextStepOf st.step, errors := [] }
  | errs => { st with errors := errs }

/-- The user interactions the wizard exposes; field edits act on the step
whose form shows the field. -/
inductive WizardAction where
  | setName (value : List Char)
  | setIndexPatterns (patterns : List (List Char))
  | addIndexPattern (pattern : List Char)
  | setOrder (value : List Char)
  | setVersion (value : List Char)
  | setSettings (value : List Char)
  | setMappings (value : List Char)
  | setAliases (value : List Char)
  | next
  | back
deriving DecidableEq

/-- One step of the wizard's state machine. -/
def applyAction (st : WizardState) (a : WizardAction) : WizardState :=
  match a with
  | .setName v =>
    if st.step = WizardStep.logistics
      then { st with draft := nameOnChange st.draft v } else st
  | .setIndexPatterns ps =>
    if st.step = WizardStep.logistics
      then { st with draft := indexPatternsOnChange st.draft ps } else st
  | .addIndexPattern p =>
    if st.step = WizardStep.logistics
      then { st with draft := indexPatternsOnCreate st.draft p } else st
  | .setOrder v =>
    if st.step = WizardStep.logistics
      then { st with draft := orderOnChange st.draft v } else st
  | .setVersion v =>
    if st.step = WizardStep.logistics
      then { st with draft := versionOnChange st.draft v } else st
  | .setSettings v =>
    if st.step = WizardStep.settings
      then { st with draft := { st.draft with settings := v } } else st
  | .setMappings v =>
    if st.step = WizardStep.mappings
      then { st with draft := { st.draft with mappings := v } } else st
  | .setAliases v =>
    if st.step = WizardStep.aliases
      then { st with draft := { st.draft with aliases := v } } else st
  | .next => clickNext st
  | .back => { st with step := prevStepOf st.step, errors := [] }

/-- Run the wizard from its initial state through a list of interactions. -/
def runWizard (acts : List WizardAction) : WizardState :=
  acts.foldl applyAction initialWizardState

/-- The payload the wizard submits on completion. -/
structure TemplatePayload where
  name : List Char
  indexPatterns : List (List Char)
  version : NumOrStr
  order : NumOrStr
  settings : List Char
  mappings : List Char
  aliases : List Char
deriving DecidableEq

/-- Modelled from the spec: the submitted payload is composed from the
draft's fields in the order the payload test fixes. -/
def composePayload (d : TemplateDraft) : TemplatePayload :=
  { name := d.name
    indexPatterns := d.indexPatterns
    version := d.version
    order := d.order
    settings := d.settings
    mappings := d.mappings
    aliases := d.aliases }

/-- An HTTP request issued by the wizard. -/
inductive HttpRequest where
  | put (payload : TemplatePayload)
deriving DecidableEq

/-- An error response from the template PUT endpoint. -/
structure HttpError where
  status : Nat
  error : List Char
  message : List Char

/-- What submission produces: the requests issued and the error banner, if
any. -/
structure SubmitOutcome where
  requests : List HttpRequest
  errorBanner : Option (List Char)

/-- Modelled from the spec: submitting issues a single PUT with the composed
payload; a failure response surfaces its message verbatim in the error
banner; no retry request is sent. -/
def submitTemplate (d : TemplateDraft) (response : Option HttpError) :
    SubmitOutcome :=
  { requests := [HttpRequest.put (composePayload d)]
    errorBanner := response.map (fun e => e.message) }

/-- Modelled from the spec: the review step's catch-all warning text. -/
def wildcardWarningMsg : List Char :=
  ("This template contains a wildcard (*) as an index pattern. " ++
    "This will create a catch-all template and apply to all indices. " ++
    "Edit template.").data

/-- Modelled from the spec: the review step shows the catch-all warning
banner exactly when the wildcard pattern is among the index patterns. -/
def reviewWildcardBanner (d : TemplateDraft) : Option (List Char) :=
  if "*".data ∈ d.indexPatterns then some wildcardWarningMsg else none

/-- C5: in the settings, mappings and aliases steps, content that does not
parse as JSON blocks advancement and the validation error emitted is exactly
`Invalid JSON format.`. -/
theorem invalid_json_blocks_step (st : WizardState)
    (h : st.step = WizardStep.settings ∨ st.step = WizardStep.mappings ∨
      st.step = WizardStep.aliases)
    (hbad : jsonParse (stepJsonField st.step st.draft) = none) :
    clickNext st = { st with errors := ["Invalid JSON format.".data] } := by
  rcases h with h | h | h <;>
  · simp only [h, stepJsonField] at hbad
    simp [clickNext, h, validateStep, validateJsonField, hbad]

/-- A settings step state carrying the invalid JSON fixture of the test
suite. -/
def badJsonState : WizardState :=
  { step := WizardStep.settings
    draft := { initialTemplate with settings := "\x7b invalidJsonString ".data }
    errors := [] }

theorem invalid_json_blocks_step_witness :
    (badJsonState.step = WizardStep.settings ∨
      badJsonState.step = WizardStep.mappings ∨
      badJsonState.step = WizardStep.aliases) ∧
    jsonParse (stepJsonField badJsonState.step badJsonState.draft) = none ∧
    clickNext badJsonState
      = { badJsonState with errors := ["Invalid JSON format.".data] } :=
  ⟨Or.inl rfl, by rfl,
    invalid_json_blocks_step badJsonState (Or.inl rfl) (by rfl)⟩

theorem validateLogistics_nil (d : TemplateDraft)
    (h : validateLogistics d = []) :
    d.name ≠ [] ∧ d.indexPatterns ≠ [] := by
  constructor <;> intro heq <;> simp [validateLogistics, heq] at h

theorem wizard_gating_preserved (acts : List WizardAction) :
    ∀ st : WizardState,
      (st.step ≠ WizardStep.logistics →
        st.draft.name ≠ [] ∧ st.draft.indexPatterns ≠ []) →
      ((acts.foldl applyAction st).step ≠ WizardStep.logistics →
        (acts.foldl applyAction st).draft.name ≠ [] ∧
        (acts.foldl applyAction st).draft.indexPatterns ≠ []) := by
  induction acts with
  | nil => exact fun st h => h
  | cons a rest ih =>
    intro st h
    rw [List.foldl_cons]
    apply ih
    cases a with
    | setName v =>
      by_cases hs : st.step = WizardStep.logistics
      · intro hstep
        simp [applyAction, hs] at hstep
      · simpa [applyAction, hs] using h
    | setIndexPatterns ps =>
      by_cases hs : st.step = WizardStep.logistics
      · intro hstep
        simp [applyAction, hs] at hstep
      · simpa [applyAction, hs] using h
    | addIndexPattern p =>
      by_cases hs : st.step = WizardStep.logistics
      · intro hstep
        simp [applyAction, hs] at hstep
      · simpa [applyAction, hs] using h
    | setOrder v =>
      by_cases hs : st.step = WizardStep.logistics
      · intro hstep
        simp [applyAction, hs] at hstep
      · simpa [applyAction, hs] using h
    | setVersion v =>
      by_cases hs : st.step = WizardStep.logistics
      · intro hstep
        simp [applyAction, hs] at hstep
      · simpa [applyAction, hs] using h
    | setSettings v =>
      by_cases hs : st.step = WizardStep.settings
      · intro hstep
        have hne : st.step ≠ WizardStep.logistics := by
          rw [hs]
          exact fun hc => WizardStep.noConfusion hc
        simp [applyAction, hs]
        exact h hne
      · simpa [applyAction, hs] using h
    | setMappings v =>
      by_cases hs : st.step = WizardStep.mappings
      · intro hstep
        have hne : st.step ≠ WizardStep.logistics := by
          rw [hs]
          exact fun hc => WizardStep.noConfusion hc
        simp [applyAction, hs]
        exact h hne
      · simpa [applyAction, hs] using h
    | setAliases v =>
      by_cases hs : st.step = WizardStep.aliases
      · intro hstep
        have hne : st.step ≠ WizardStep.logistics := by
          rw [hs]
          exact fun hc => WizardStep.noConfusion hc
        simp [applyAction, hs]
        exact h hne
      · simpa [applyAction, hs] using h
    | next =>
      cases hv : validateStep st.step st.draft with
      | nil =>
        intro hstep
        by_cases hs : st.step = WizardStep.logistics
        · have hnil : validateLogistics st.draft = [] := by
            rw [hs] at hv
            simpa [validateStep] using hv
          have hok := validateLogistics_nil st.draft hnil
          simp [applyAction, clickNext, hv]
          exact hok
        · have hok := h hs
          simp [applyAction, clickNext, hv]
          exact hok
      | cons e es =>
        intro hstep
        simp [applyAction, clickNext, hv] at hstep ⊢
        exact h hstep
    | back =>
      intro hstep
      simp only [applyAction] at hstep ⊢
      by_cases hs : st.step = WizardStep.logistics
      · rw [hs] at hstep
        simp [prevStepOf] at hstep
      · simp at hstep ⊢
        exact h hs

/-- C6: in every reachable wizard state beyond logistics the draft's name is
non-empty and at least one index pattern is present; advancing from
logistics with an empty name and no index pattern is blocked and reports
both required-field errors. -/
theorem templateWizard_gating :
    (∀ acts : List WizardAction,
      (runWizard acts).step ≠ WizardStep.logistics →
      (runWizard acts).draft.name ≠ [] ∧
        (runWizard acts).draft.indexPatterns ≠ []) ∧
    (∀ st : WizardState, st.step = WizardStep.logistics →
      st.draft.name = [] → st.draft.indexPatterns = [] →
      clickNext st
        = { st with errors := ["Template name is required.".data,
            "You must define at least one index pattern.".data] }) := by
  constructor
  · intro acts
    exact wizard_gating_preserved acts initialWizardState
      (fun hst => absurd rfl hst)
  · intro st hs hname hpats
    have hv : validateStep st.step st.draft
        = ["Template name is required.".data,
           "You must define at least one index pattern.".data] := by
      rw [hs]
      simp [validateStep, validateLogistics, hname, hpats]
    simp [clickNext, hv]

/-- The interactions that complete the logistics step as in the tests. -/
def gatingActs : List WizardAction :=
  [WizardAction.setName ("test_template".data),
   WizardAction.setIndexPatterns [("index1".data)],
   WizardAction.next]

theorem templateWizard_gating_witness :
    (runWizard gatingActs).step ≠ WizardStep.logistics ∧
    ((runWizard gatingActs).draft.name ≠ [] ∧
      (runWizard gatingActs).draft.indexPatterns ≠ []) ∧
    initialWizardState.step = WizardStep.logistics ∧
    clickNext initialWizardState
      = { initialWizardState with
          errors := ["Template name is required.".data,
            "You must define at least one index pattern.".data] } :=
  ⟨by decide, templateWizard_gating.1 gatingActs (by decide), rfl,
    templateWizard_gating.2 initialWizardState rfl rfl rfl⟩

/-- C7: a draft whose index patterns contain the wildcard pattern shows the
catch-all warning banner at the review step. -/
theorem review_wildcard_warning (d : TemplateDraft)
    (h : "*".data ∈ d.indexPatterns) :
    reviewWildcardBanner d = some wildcardWarningMsg := by
  simp [reviewWildcardBanner, h]

/-- The draft the wildcard warning test builds. -/
def wildcardDraft : TemplateDraft :=
  { initialTemplate with
      name := "test_template".data
      indexPatterns := ["*".data] }

theorem review_wildcard_warning_witness :
    "*".data ∈ wildcardDraft.indexPatterns ∧
    reviewWildcardBanner wildcardDraft = some wildcardWarningMsg :=
  ⟨by decide, review_wildcard_warning wildcardDraft (by decide)⟩

/-- C8: submission issues exactly one PUT whose body is the payload composed
of name, indexPatterns, version, order, settings, mappings and aliases; an
error response surfaces its message verbatim in the banner and no further
request is sent. -/
theorem submitTemplate_single_put (d : TemplateDraft)
    (resp : Option HttpError) :
    (submitTemplate d resp).requests = [HttpRequest.put (composePayload d)] ∧
    (submitTemplate d resp).requests.length = 1 ∧
    composePayload d
      = { name := d.name
          indexPatterns := d.indexPatterns
          version := d.version
          order := d.order
          settings := d.settings
          mappings := d.mappings
          aliases := d.aliases } ∧
    (submitTemplate d resp).errorBanner = resp.map (fun e => e.message) :=
  ⟨rfl, rfl, rfl, rfl⟩

/-- An order/version draft value is a number or the cleared-input empty
string. -/
def numFieldOk (o : NumOrStr) : Prop :=
  o = NumOrStr.str [] ∨ ∃ n : Int, o = NumOrStr.num n

/-- C9 counterexample: the untouched draft and its composed payload hold the
empty string - not a number and not absent - for order and version, and
clearing the order input stores the empty string. -/
theorem orderVersion_empty_string_counterexample :
    (orderOnChange initialTemplate []).order = NumOrStr.str [] ∧
    NumOrStr.isNum (orderOnChange initialTemplate []).order = false ∧
    (composePayload initialTemplate).order = NumOrStr.str [] ∧
    (composePayload initialTemplate).version = NumOrStr.str [] ∧
    NumOrStr.isNum (composePayload initialTemplate).order = false :=
  ⟨rfl, rfl, rfl, rfl, rfl⟩

theorem orderVersion_ok_preserved (acts : List WizardAction) :
    ∀ st : WizardState,
      numFieldOk st.draft.order ∧ numFieldOk st.draft.version →
      numFieldOk (acts.foldl applyAction st).draft.order ∧
        numFieldOk (acts.foldl applyAction st).draft.version := by
  induction acts with
  | nil => exact fun st h => h
  | cons a rest ih =>
    intro st h
    rw [List.foldl_cons]
    apply ih
    cases a with
    | setName v =>
      by_cases hs : st.step = WizardStep.logistics <;>
        simpa [applyAction, hs, nameOnChange] using h
    | setIndexPatterns ps =>
      by_cases hs : st.step = WizardStep.logistics <;>
        simpa [applyAction, hs, indexPatternsOnChange] using h
    | addIndexPattern p =>
      by_cases hs : st.step = WizardStep.logistics <;>
        by_cases hp : p.all isWs <;>
          simpa [applyAction, hs, indexPatternsOnCreate, hp] using h
    | setOrder v =>
      by_cases hs : st.step = WizardStep.logistics
      · by_cases hv : v = []
        · constructor
          · simp [applyAction, hs, orderOnChange, hv, numFieldOk]
          · simpa [applyAction, hs, orderOnChange] using h.2
        · constructor
          · simp [applyAction, hs, orderOnChange, hv, numFieldOk]
          · simpa [applyAction, hs, orderOnChange] using h.2
      · simpa [applyAction, hs] using h
    | setVersion v =>
      by_cases hs : st.step = WizardStep.logistics
      · by_cases hv : v = []
        · constructor
          · simpa [applyAction, hs, versionOnChange] using h.1
          · simp [applyAction, hs, versionOnChange, hv, numFieldOk]
        · constructor
          · simpa [applyAction, hs, versionOnChange] using h.1
          · simp [applyAction, hs, versionOnChange, hv, numFieldOk]
      · simpa [applyAction, hs] using h
    | setSettings v =>
      by_cases hs : st.step = WizardStep.settings <;>
        simpa [applyAction, hs] using h
    | setMappings v =>
      by_cases hs : st.step = WizardStep.mappings <;>
        simpa [applyAction, hs] using h
    | setAliases v =>
      by_cases hs : st.step = WizardStep.aliases <;>
        simpa [applyAction, hs] using h
    | next =>
      cases hv : validateStep st.step st.draft with
      | nil => simpa [applyAction, clickNext, hv] using h
      | cons e es => simpa [applyAction, clickNext, hv] using h
    | back => simpa [applyAction] using h

/-- C9 amended: in every reachable draft state, and in the composed payload,
order and version are either numbers or the empty string (the cleared-input
sentinel the payload test expects); the onChange handlers store the empty
string for empty input and `Number(value)` otherwise, and the payload passes
both fields through unchanged. -/
theorem orderVersion_num_or_empty :
    (∀ acts : List WizardAction,
      numFieldOk (runWizard acts).draft.order ∧
        numFieldOk (runWizard acts).draft.version) ∧
    (∀ (d : TemplateDraft) (v : List Char),
      (orderOnChange d v).order
          = (if v = [] then NumOrStr.str []
              else NumOrStr.num (jsNumber v)) ∧
        (versionOnChange d v).version
          = (if v = [] then NumOrStr.str []
              else NumOrStr.num (jsNumber v))) ∧
    (∀ d : TemplateDraft,
      (composePayload d).order = d.order ∧
        (composePayload d).version = d.version) := by
  refine ⟨?_, ?_, ?_⟩
  · intro acts
    exact orderVersion_ok_preserved acts initialWizardState
      ⟨Or.inl rfl, Or.inl rfl⟩
  · intro d v
    by_cases hv : v = [] <;> constructor <;>
      simp [orderOnChange, versionOnChange, hv]
  · exact fun d => ⟨rfl, rfl⟩

/-- C10: a pattern containing a space or a character from
`INVALID_CHARACTERS` blocks advancement past the logistics step and shows
the per-pattern illegal character message. -/
theorem illegal_pattern_blocks (st : WizardState) (p : List Char) (c : Char)
    (hstep : st.step = WizardStep.logistics)
    (hp : p ∈ st.draft.indexPatterns)
    (hc : c ∈ p) (hill : c = ' ' ∨ c ∈ INVALID_CHARACTERS) :
    (clickNext st).step = WizardStep.logistics ∧
    illegalCharsMsg p ∈ (clickNext st).errors := by
  have hpat : patternHasIllegalChars p = true := by
    unfold patternHasIllegalChars
    rw [List.any_eq_true]
    exact ⟨c, hc, decide_eq_true hill⟩
  have hmem : illegalCharsMsg p ∈ validateLogistics st.draft := by
    unfold validateLogistics
    refine List.mem_append.mpr (Or.inr ?_)
    exact List.mem_map.mpr ⟨p, List.mem_filter.mpr ⟨hp, hpat⟩, rfl⟩
  have hv : validateStep st.step st.draft = validateLogistics st.draft := by
    rw [hstep]
    rfl
  cases hvl : validateLogistics st.draft with
  | nil =>
    rw [hvl] at hmem
    exact absurd hmem (List.not_mem_nil _)
  | cons e es =>
    have hcn : clickNext st = { st with errors := e :: es } := by
      simp [clickNext, hv, hvl]
    rw [hcn]
    exact ⟨hstep, hvl ▸ hmem⟩

/-- A logistics state carrying an illegal index pattern fixture. -/
def illegalPatternState : WizardState :=
  { step := WizardStep.logistics
    draft := { initialTemplate with
        name := "test_template".data
        indexPatterns := ["with?".data] }
    errors := [] }

theorem illegal_pattern_blocks_witness :
    illegalPatternState.step = WizardStep.logistics ∧
    "with?".data ∈ illegalPatternState.draft.indexPatterns ∧
    '?' ∈ "with?".data ∧
    ('?' = ' ' ∨ '?' ∈ INVALID_CHARACTERS) ∧
    ((clickNext illegalPatternState).step = WizardStep.logistics ∧
      illegalCharsMsg ("with?".data)
        ∈ (clickNext illegalPatternState).errors) :=
  ⟨rfl, by decide, by decide, by decide,
    illegal_pattern_blocks illegalPatternState ("with?".data) '?' rfl
      (by decide) (by decide) (by decide)⟩
